import Mathlib

/-!
# Verification of the llm-router chat orchestration frontend

This file gives a shallow embedding, in Lean 4, of the chat-orchestration
core of the llm-router repository, and proves (or refutes) the frozen
claims about it.

The embedded code comes from:
* `frontend/src/components/ChatInterface.ts` — message submission
  (`handleSendMessage`), slash-command handling (`handleCommand`,
  `findModel`, `handleModelChange`), the background polling loop
  (`startPolling`), default synchronisation (`syncDefaults`) and the
  static catalog fallback in `createChatInterface`;
* `frontend/src/commands.ts` — `parseCommand`;
* `frontend/src/api.ts` — the request-body construction of `submitChat`
  and `streamChat`.

JavaScript strings are modelled as Lean `String`/`List Char`; JavaScript
numbers that the code checks with `Number.isFinite` are modelled as `ℚ`
(with `Option ℚ` where `null`/`NaN` can occur).  Wall-clock values
(`Date.now()`) are irrelevant to every claim and are abstracted to `0`.

The backend handler for `POST /chat/submit` is not part of the source
tree; it is modelled from the specification text (see `Backend` section).
-/

namespace LlmRouter

/-! ## JavaScript string primitives -/

/-- Models the character class `\s` of the regexes used by the code, and
the characters removed by `String.prototype.trim`. -/
def isWs (c : Char) : Bool :=
  c.isWhitespace

/-- Models `String.prototype.trim` on the underlying character list:
leading and trailing whitespace is removed. -/
def jsTrimL (cs : List Char) : List Char :=
  ((cs.dropWhile isWs).reverse.dropWhile isWs).reverse

/-- Models `String.prototype.trim`. -/
def jsTrim (s : String) : String :=
  ⟨jsTrimL s.data⟩

/-- Models `String.prototype.toLowerCase` (the code only ever lowercases
ASCII model ids, names and reasoning levels). -/
def jsToLower (s : String) : String :=
  ⟨s.data.map Char.toLower⟩

/-- Checks whether `needle` occurs as a contiguous sublist of `hay`. -/
def containsSub (needle : List Char) : List Char → Bool
  | [] => needle.isEmpty
  | c :: t => needle.isPrefixOf (c :: t) || containsSub needle t

/-- Models `a.includes(b)` on JavaScript strings: `b` occurs as a
contiguous substring of `a`. -/
def jsIncludes (a b : String) : Bool :=
  containsSub b.data a.data

/-- Models `s.split(/\s+/)` on an already trimmed string: maximal runs of
non-whitespace characters, in order.  (`List.splitOnP` splits at every
whitespace character, leaving empty chunks between consecutive whitespace
characters; the regex `\s+` consumes whole runs, hence the filter.) -/
def wsWords (cs : List Char) : List (List Char) :=
  (cs.splitOnP isWs).filter (fun t => !t.isEmpty)

/-- Models `rest.join(' ')` on the underlying character lists. -/
def joinSp : List (List Char) → List Char
  | [] => []
  | [t] => t
  | t :: rest => t ++ ' ' :: joinSp rest

/-! ## Data model

Mirrors `frontend/src/types.ts` (`Message`, `Conversation`, `ModelInfo`,
`ModelDefaults`, `ModelCatalog`, the fields of `AppState` that the
embedded operations touch). -/

/-- Mirrors the `Message` interface of `types.ts`.  Optional fields are
`Option`s (`none` models an absent field). -/
structure Message where
  id : String
  role : String
  content : String
  model : Option String := none
  temperature : Option ℚ := none
  reasoning : Option String := none
  status : Option String := none
  tokens_input : Option ℕ := none
  tokens_output : Option ℕ := none
  cost : Option ℚ := none
  created_at : ℚ := 0
deriving DecidableEq

/-- Mirrors the `Conversation` interface of `types.ts` (the fields the
embedded operations read). -/
structure Conversation where
  id : String
  title : String
  model : String
  system_prompt : Option String := none
  messages : Option (List Message) := none
deriving DecidableEq

/-- Mirrors the `ModelInfo` interface of `types.ts`. -/
structure ModelInfo where
  id : String
  name : String
  provider : String
  input_cost : ℚ
  output_cost : ℚ
  source : String
  pricing_source : String
  available : Bool
  supports_reasoning : Bool
  reasoning_levels : List String
  supports_temperature : Bool
deriving DecidableEq, Inhabited

/-- Mirrors the `ModelDefaults` interface of `types.ts`. -/
structure ModelDefaults where
  model : String
  reasoning : String
  temperature : ℚ
deriving DecidableEq

/-- Mirrors the `ModelCatalog` interface of `types.ts`. -/
structure ModelCatalog where
  defaults : ModelDefaults
  models : List ModelInfo
deriving DecidableEq

/-- The fields of the reactive store state (`AppState` in `types.ts`)
that the embedded operations read or write. -/
structure AppState where
  selectedModel : String
  temperature : ℚ
  reasoning : String
  pendingSystem : String
  messages : List Message
  currentConversation : Option Conversation
  isStreaming : Bool
  error : Option String
deriving DecidableEq

/-- Mirrors `getActiveModel` of `ChatInterface.ts` (and the identical
`models.find((model) => model.id === store.getState().selectedModel)`
lookups inside `handleCommand`): the catalog entry of the currently
selected model, if any. -/
def getActiveModel (models : List ModelInfo) (st : AppState) : Option ModelInfo :=
  models.find? (fun m => m.id == st.selectedModel)

/-! ## Sample data

Concrete catalog entries and store states used by witness and
counterexample theorems.  The entries are shaped like the live catalog
(`gpt-5.1` with reasoning levels and temperature support,
`claude-3-5-sonnet-20240620` with neither). -/

/-- Sample catalog entry: supports temperature and three reasoning
levels. -/
def sampleGpt : ModelInfo :=
  { id := "gpt-5.1"
    name := "GPT-5.1"
    provider := "openai"
    input_cost := mkRat 1 100   -- 0.01
    output_cost := mkRat 3 100   -- 0.03
    source := "live"
    pricing_source := "live"
    available := true
    supports_reasoning := true
    reasoning_levels := ["low", "medium", "high"]
    supports_temperature := true }

/-- Sample catalog entry: supports temperature, no reasoning levels. -/
def sampleClaude : ModelInfo :=
  { id := "claude-3-5-sonnet-20240620"
    name := "Claude 3.5 Sonnet"
    provider := "anthropic"
    input_cost := mkRat 3 1000   -- 0.003
    output_cost := mkRat 15 1000   -- 0.015
    source := "live"
    pricing_source := "live"
    available := true
    supports_reasoning := false
    reasoning_levels := []
    supports_temperature := false }

/-- Sample catalog entry: reasoning levels but no temperature support. -/
def sampleO1 : ModelInfo :=
  { id := "o1-mini"
    name := "o1 Mini"
    provider := "openai"
    input_cost := mkRat 3 1000   -- 0.003
    output_cost := mkRat 12 1000   -- 0.012
    source := "live"
    pricing_source := "live"
    available := true
    supports_reasoning := true
    reasoning_levels := ["low", "medium", "high"]
    supports_temperature := false }

/-- Sample model catalog. -/
def sampleModels : List ModelInfo :=
  [sampleGpt, sampleClaude, sampleO1]

/-- Sample store state with `gpt-5.1` active. -/
def sampleState : AppState :=
  { selectedModel := "gpt-5.1"
    temperature := mkRat 1 5   -- 0.2
    reasoning := "low"
    pendingSystem := ""
    messages := []
    currentConversation := none
    isStreaming := false
    error := none }

/-! ## C1 — execution-mode selection in `handleSendMessage`

`ChatInterface.ts` line 370:
`const shouldStream = navigator.onLine && document.visibilityState === 'visible';`
followed by `if (shouldStream) { ... streaming branch ... }` and otherwise
the background-submission branch. -/

/-- Mirrors the `shouldStream` computation of `handleSendMessage`:
`navigator.onLine && document.visibilityState === 'visible'`. -/
def shouldStream (onLine : Bool) (visibilityState : String) : Bool :=
  onLine && visibilityState == "visible"

/-- The two execution modes of a submission (§4.4 of the spec). -/
inductive SubmissionMode where
  | streaming
  | background
deriving DecidableEq

/-- The mode `handleSendMessage` executes a submission in: the streaming
branch when `shouldStream` holds, the background branch otherwise.
`handleSendMessage` has no mode parameter — its only inputs besides the
message and store state are the browser signals `navigator.onLine` and
`document.visibilityState`. -/
def submissionMode (onLine : Bool) (visibilityState : String) : SubmissionMode :=
  if shouldStream onLine visibilityState then .streaming else .background

/-! ## C8 — catalog loading fallback in `createChatInterface`

`ChatInterface.ts` lines 23–46: `api.getModelCatalog()` inside
`try { ... } catch { models = [ ...one hardcoded entry... ]; catalogDefaults = ...; }`. -/

/-- Mirrors the hardcoded fallback model list assigned in the `catch`
branch of `createChatInterface` (lines 30–44). -/
def fallbackModels : List ModelInfo :=
  [{ id := "gpt-5.1"
     name := "GPT-5.1"
     provider := "openai"
     input_cost := mkRat 1 100   -- 0.01
     output_cost := mkRat 3 100   -- 0.03
     source := "fallback"
     pricing_source := "fallback"
     available := true
     supports_reasoning := true
     reasoning_levels := ["low", "medium", "high"]
     supports_temperature := true }]

/-- Mirrors the hardcoded fallback defaults assigned in the `catch`
branch of `createChatInterface` (line 45). -/
def fallbackDefaults : ModelDefaults :=
  { model := "gpt-5.1", reasoning := "low", temperature := mkRat 1 5 }  -- temperature 0.2

/-- Mirrors the catalog-loading step of `createChatInterface`:
`fetched = some catalog` models a successful `api.getModelCatalog()`
call, `fetched = none` models the call throwing; the `catch` branch
substitutes the hardcoded fallback catalog instead of failing. -/
def loadCatalog (fetched : Option ModelCatalog) : ModelCatalog :=
  match fetched with
  | some catalog => catalog
  | none => { defaults := fallbackDefaults, models := fallbackModels }

/-! ## C3 — resolved request parameters

`ChatInterface.ts` lines 366–369 (`handleSendMessage`) and the request
bodies of `submitChat` / `streamChat` in `api.ts` (both build the body
with the same conditional spreads). -/

/-- Mirrors `ChatInterface.ts` line 367:
`const effectiveTemp = model && !model.supports_temperature ? null : state.temperature;`
(`none` models `null`). -/
def effectiveTemp (model : Option ModelInfo) (temperature : ℚ) : Option ℚ :=
  match model with
  | some m => if !m.supports_temperature then none else some temperature
  | none => some temperature

/-- Mirrors `ChatInterface.ts` lines 368–369:
`const effectiveReasoning = model && model.reasoning_levels.length > 0 ? state.reasoning : '';`. -/
def effectiveReasoning (model : Option ModelInfo) (reasoning : String) : String :=
  match model with
  | some m => if m.reasoning_levels.length > 0 then reasoning else ""
  | none => ""

/-- The JSON body sent to `POST /api/chat/submit` and
`POST /api/chat/stream`.  A field of type `Option` with value `none`
models the field being absent from the body (the conditional spread
`...(x ? { x } : {})` in `api.ts`). -/
structure ChatRequestBody where
  message : String
  model : String
  conversation_id : Option String
  temperature : Option ℚ
  reasoning : Option String
  system_text : Option String
deriving DecidableEq

/-- Mirrors the body construction shared by `submitChat` and
`streamChat` in `api.ts`:
`{ message, model, conversation_id, ...(temperature !== null ? { temperature } : {}), ...(reasoning ? { reasoning } : {}), ...(systemText ? { system_text: systemText } : {}) }`. -/
def chatRequestBody (message model : String) (conversationId : Option String)
    (temperature : Option ℚ) (reasoning : String) (systemText : Option String) :
    ChatRequestBody :=
  { message := message
    model := model
    conversation_id := conversationId
    temperature := temperature
    reasoning := if reasoning == "" then none else some reasoning
    system_text :=
      match systemText with
      | some t => if t == "" then none else some t
      | none => none }

/-- The request body `handleSendMessage` hands to `api.submitChat` /
`api.streamChat` (`ChatInterface.ts` lines 400–406 and 459–466): the
resolved parameters from lines 366–369 together with
`state.pendingSystem || null`. -/
def sendMessageRequestBody (models : List ModelInfo) (st : AppState)
    (message : String) : ChatRequestBody :=
  let model := getActiveModel models st
  chatRequestBody message st.selectedModel
    ((st.currentConversation).map Conversation.id)
    (effectiveTemp model st.temperature)
    (effectiveReasoning model st.reasoning)
    (if st.pendingSystem == "" then none else some st.pendingSystem)

/-! ## JavaScript number conversion

`handleCommand` converts the `/temp` argument with `Number(parsed.arg)`
and immediately tests `Number.isFinite(value)`.  The two steps are
modelled together by `jsNumberFinite`. -/

/-- Numeric value of a decimal digit sequence. -/
def digitsToNat (ds : List Char) : ℕ :=
  ds.foldl (fun acc c => 10 * acc + (c.toNat - '0'.toNat)) 0

/-- Parses the exponent suffix (after `e`/`E`) of a JavaScript decimal
literal: an optional sign followed by at least one digit. -/
def parseExpPart (cs : List Char) : Option ℤ :=
  match cs with
  | '+' :: ds =>
    if !ds.isEmpty && ds.all Char.isDigit then some (digitsToNat ds) else none
  | '-' :: ds =>
    if !ds.isEmpty && ds.all Char.isDigit then some (-(digitsToNat ds : ℤ)) else none
  | ds =>
    if !ds.isEmpty && ds.all Char.isDigit then some (digitsToNat ds) else none

/-- Scales `num / den` by `10 ^ e`. -/
def applyExp10 (num : ℤ) (den : ℕ) (e : ℤ) : ℚ :=
  if 0 ≤ e then mkRat (num * ((10 : ℕ) ^ e.toNat : ℕ)) den
  else mkRat num (den * 10 ^ (-e).toNat)

/-- Parses an unsigned JavaScript decimal numeral
(`digits [. digits] [(e|E) exp]` or `. digits [(e|E) exp]`), returning
its exact rational value. -/
def parseDecCore (cs : List Char) : Option ℚ :=
  let intPart := cs.takeWhile Char.isDigit
  let rest := cs.dropWhile Char.isDigit
  match rest with
  | [] => if intPart.isEmpty then none else some (mkRat (digitsToNat intPart) 1)
  | '.' :: rest2 =>
    let fracPart := rest2.takeWhile Char.isDigit
    let rest3 := rest2.dropWhile Char.isDigit
    if intPart.isEmpty && fracPart.isEmpty then none
    else
      let num : ℤ := digitsToNat intPart * 10 ^ fracPart.length + digitsToNat fracPart
      let den : ℕ := 10 ^ fracPart.length
      match rest3 with
      | [] => some (mkRat num den)
      | 'e' :: rest4 => (parseExpPart rest4).map (applyExp10 num den)
      | 'E' :: rest4 => (parseExpPart rest4).map (applyExp10 num den)
      | _ => none
  | 'e' :: rest2 =>
    if intPart.isEmpty then none
    else (parseExpPart rest2).map (applyExp10 (digitsToNat intPart) 1)
  | 'E' :: rest2 =>
    if intPart.isEmpty then none
    else (parseExpPart rest2).map (applyExp10 (digitsToNat intPart) 1)
  | _ => none

/-- Value of a hexadecimal digit (`16` on any other character). -/
def hexDigitVal (c : Char) : ℕ :=
  if c.isDigit then c.toNat - '0'.toNat
  else if 'a' ≤ c ∧ c ≤ 'f' then c.toNat - 'a'.toNat + 10
  else if 'A' ≤ c ∧ c ≤ 'F' then c.toNat - 'A'.toNat + 10
  else 16

/-- Parses a digit string in the given radix (the JavaScript
`0x`/`0o`/`0b` integer forms). -/
def parseRadixDigits (radix : ℕ) (isD : Char → Bool) (val : Char → ℕ)
    (ds : List Char) : Option ℚ :=
  if ds.isEmpty then none
  else if ds.all isD then
    some (mkRat (ds.foldl (fun acc c => radix * acc + val c) 0 : ℕ) 1)
  else none

/-- Models the JavaScript conversion `Number(arg)` followed by the
`Number.isFinite(value)` test of `handleCommand`: `some v` when
`Number(arg)` is a finite number of exact value `v`, `none` when it is
`NaN`, `Infinity` or `-Infinity`.  Follows the ToNumber specification on
strings: whitespace is trimmed; the empty string converts to `0`;
`0x`/`0o`/`0b` prefixes introduce radix integer literals; otherwise an
optionally signed decimal literal with optional fraction and exponent;
`Infinity` (optionally signed) is non-finite; anything else is `NaN`.
Values are exact rationals; IEEE 754 double rounding is not modelled. -/
def jsNumberFinite (s : String) : Option ℚ :=
  match jsTrimL s.data with
  | [] => some 0
  | '0' :: 'x' :: ds => parseRadixDigits 16 (fun c => hexDigitVal c < 16) hexDigitVal ds
  | '0' :: 'X' :: ds => parseRadixDigits 16 (fun c => hexDigitVal c < 16) hexDigitVal ds
  | '0' :: 'o' :: ds => parseRadixDigits 8 (fun c => c.toNat - '0'.toNat < 8 && c.isDigit) (fun c => c.toNat - '0'.toNat) ds
  | '0' :: 'O' :: ds => parseRadixDigits 8 (fun c => c.toNat - '0'.toNat < 8 && c.isDigit) (fun c => c.toNat - '0'.toNat) ds
  | '0' :: 'b' :: ds => parseRadixDigits 2 (fun c => c == '0' || c == '1') (fun c => c.toNat - '0'.toNat) ds
  | '0' :: 'B' :: ds => parseRadixDigits 2 (fun c => c == '0' || c == '1') (fun c => c.toNat - '0'.toNat) ds
  | '+' :: r => if r = "Infinity".data then none else parseDecCore r
  | '-' :: r => if r = "Infinity".data then none else (parseDecCore r).map Neg.neg
  | t => if t = "Infinity".data then none else parseDecCore t

/-- Models `value.toFixed(2)` on the exact rational value: the decimal
numeral with two fraction digits nearest to `v`, ties rounded towards
`+∞`, as `Number.prototype.toFixed` specifies (IEEE 754 double-rounding
artefacts are not modelled; the string is display-only). -/
def qToFixed2 (v : ℚ) : String :=
  let scaled : ℤ := Int.fdiv (200 * v.num + v.den) (2 * v.den)
  let a := scaled.natAbs
  (if scaled < 0 then "-" else "") ++ toString (a / 100) ++ "." ++
    (if a % 100 < 10 then "0" else "") ++ toString (a % 100)

/-! ## Command handlers

From `ChatInterface.ts`: `addSystemMessage` (lines 589–597), `findModel`
(625–634), `getReasoningLevels` (636–639), `handleModelChange` (311–328),
the `model`/`temp`/`reasoning` branches of `handleCommand` (490–531), and
`syncDefaults` (765–787). -/

/-- Mirrors `addSystemMessage` (lines 589–597): appends a system-role
message with the given content.  The wall-clock message id and timestamp
are abstracted to constants. -/
def addSystemMessage (st : AppState) (content : String) : AppState :=
  { st with
    messages := st.messages ++
      [{ id := "system", role := "system", content := content, created_at := 0 }] }

/-- Mirrors `findModel` (lines 625–634): the query is trimmed and
lowercased; an empty query matches nothing; otherwise the first model
whose lowercased id matches exactly, else the first whose lowercased
display name matches exactly, else the first whose lowercased id contains
the query as a substring; `null` otherwise. -/
def findModel (models : List ModelInfo) (query : String) : Option ModelInfo :=
  let normalized := jsToLower (jsTrim query)
  if normalized == "" then none
  else
    match models.find? (fun m => jsToLower m.id == normalized) with
    | some m => some m
    | none =>
      match models.find? (fun m => jsToLower m.name == normalized) with
      | some m => some m
      | none => models.find? (fun m => jsIncludes (jsToLower m.id) normalized)

/-- Mirrors `getReasoningLevels` (lines 636–639): the reasoning levels of
the currently selected model, `[]` when it is not in the catalog. -/
def getReasoningLevels (models : List ModelInfo) (st : AppState) : List String :=
  match models.find? (fun m => m.id == st.selectedModel) with
  | some current => current.reasoning_levels
  | none => []

/-- Mirrors `handleModelChange` (lines 311–328): selects the model; when
it is in the catalog, sets or clears the availability warning, resets the
reasoning level to the model's first level when the model has levels and
the current level is not among them, and resets the temperature to `0.0`
when the model does not support temperature. -/
def handleModelChange (models : List ModelInfo) (st : AppState) (modelId : String) :
    AppState :=
  let st1 := { st with selectedModel := modelId }
  match models.find? (fun m => m.id == modelId) with
  | none => st1
  | some selected =>
    let st2 := { st1 with
      error :=
        if !selected.available then
          some "Model availability is unverified for this API key."
        else none }
    let st3 := { st2 with
      reasoning :=
        if selected.reasoning_levels.length > 0 &&
            !selected.reasoning_levels.contains st2.reasoning then
          selected.reasoning_levels.headI
        else st2.reasoning }
    { st3 with
      temperature := if !selected.supports_temperature then 0 else st3.temperature }

/-- Mirrors the `model` branch of `handleCommand` (lines 490–499): look
the query up with `findModel`; on no match set the rejection message; on
a match apply `handleModelChange` and append a confirmation. -/
def handleModelCommand (models : List ModelInfo) (st : AppState) (arg : String) :
    AppState :=
  match findModel models arg with
  | none => { st with error := some "Model not found. Try /model and autocomplete." }
  | some m =>
    addSystemMessage (handleModelChange models st m.id)
      ("Model set to **" ++ m.name ++ "** (" ++ m.id ++ ").")

/-- Mirrors the `temp` branch of `handleCommand` (lines 500–515): reject
when the active model does not support temperature; convert the argument
with `Number` and reject unless the value is finite and within `[0, 2]`;
otherwise store the temperature, append a confirmation and clear the
error banner. -/
def handleTempCommand (models : List ModelInfo) (st : AppState) (arg : String) :
    AppState :=
  let current := models.find? (fun m => m.id == st.selectedModel)
  let unsupported :=
    match current with
    | some m => !m.supports_temperature
    | none => false
  if unsupported then
    { st with error := some "Temperature not supported for this model." }
  else
    match jsNumberFinite arg with
    | none => { st with error := some "Temperature must be between 0 and 2." }
    | some value =>
      if value < 0 ∨ value > 2 then
        { st with error := some "Temperature must be between 0 and 2." }
      else
        let st1 := { st with temperature := value }
        let st2 := addSystemMessage st1 ("Temperature set to **" ++ qToFixed2 value ++ "**.")
        { st2 with error := none }

/-- Mirrors the `reasoning` branch of `handleCommand` (lines 516–531):
reject when the active model declares no levels; otherwise look the
lowercased argument up among the levels (`levels.find((level) => level === parsed.arg.toLowerCase())`),
rejecting on no match and storing the matched level otherwise. -/
def handleReasoningCommand (models : List ModelInfo) (st : AppState) (arg : String) :
    AppState :=
  let levels := getReasoningLevels models st
  if levels.isEmpty then
    { st with error := some "Reasoning levels not supported for this model." }
  else
    match levels.find? (fun level => level == jsToLower arg) with
    | none =>
      let joined := String.intercalate ", " levels
      { st with
        error := some ("Reasoning must be one of: " ++
          (if joined == "" then "n/a" else joined) ++ ".") }
    | some selected =>
      let st1 := { st with reasoning := selected }
      let st2 := addSystemMessage st1 ("Reasoning set to **" ++ selected ++ "**.")
      { st2 with error := none }

/-- Mirrors `syncDefaults` (lines 765–787): when catalog defaults are
present, fall back to the default model when the selected one is not in
the catalog, to the default reasoning when none is stored, and to the
model's first reasoning level when the model declares levels that do not
contain the stored one.  Temperatures are rationals, hence always finite,
so the `Number.isFinite(state.temperature)` fallback (lines 777–779) is
the identity here. -/
def syncDefaults (models : List ModelInfo) (catalogDefaults : Option ModelDefaults)
    (st : AppState) : AppState :=
  match catalogDefaults with
  | none => st
  | some defaults =>
    let st1 := { st with
      selectedModel :=
        if models.any (fun m => m.id == st.selectedModel) then st.selectedModel
        else defaults.model }
    let st2 := { st1 with
      reasoning := if st1.reasoning == "" then defaults.reasoning else st1.reasoning }
    match models.find? (fun m => m.id == st2.selectedModel) with
    | some currentModel =>
      { st2 with
        reasoning :=
          if currentModel.reasoning_levels.length > 0 &&
              !currentModel.reasoning_levels.contains st2.reasoning then
            currentModel.reasoning_levels.headI
          else st2.reasoning }
    | none => st2

/-! ## C5 — the background polling loop

From `ChatInterface.ts` lines 732–763 (`startPolling`) and the plain GET
reads of `api.ts`. -/

/-- The backend API calls the frontend can issue (`api.ts`).
`getConversation`, `getConversations` and `getUsageSummary` are plain
HTTP GET reads; the chat and image calls trigger a provider
invocation. -/
inductive ApiCall where
  | getConversation (id : String)
  | getConversations
  | getUsageSummary (scope : String)
  | submitChatCall (body : ChatRequestBody)
  | streamChatCall (body : ChatRequestBody)
  | generateImageCall (prompt : String)
  | createConversationCall (title : String) (model : String)
  | deleteConversationCall (id : String)
  | cloneConversationCall (id : String)
  | appendSystemTextCall (id : String) (text : String)
deriving DecidableEq

/-- The calls that only read server state (HTTP GET in `api.ts`),
mutating nothing. -/
def ApiCall.isRead : ApiCall → Bool
  | .getConversation _ => true
  | .getConversations => true
  | .getUsageSummary _ => true
  | _ => false

/-- The calls that trigger a provider (LLM) invocation. -/
def ApiCall.triggersProvider : ApiCall → Bool
  | .submitChatCall _ => true
  | .streamChatCall _ => true
  | .generateImageCall _ => true
  | _ => false

/-- Mirrors line 740 of `startPolling`:
`conversation.messages?.some((msg) => msg.status === 'pending')`
(an absent `messages` field gives `undefined`, which is falsy). -/
def hasPendingMessage (conv : Conversation) : Bool :=
  match conv.messages with
  | some msgs => msgs.any (fun msg => msg.status == some "pending")
  | none => false

/-- Observable outcome of one iteration of the `poll` closure of
`startPolling`: the API calls it issues, whether and with which delay it
re-schedules itself, the conversation it stores, and whether it clears
the streaming flag. -/
structure PollStepResult where
  calls : List ApiCall
  schedulesNext : Bool
  nextDelayMs : ℕ
  newConversation : Option Conversation
  stopsStreaming : Bool
deriving DecidableEq

/-- Mirrors one iteration of the `poll` closure of `startPolling`
(`ChatInterface.ts` lines 736–750).  `fetched = some conv` models
`api.getConversation(conversationId)` returning `conv`; `fetched = none`
models the call throwing (the `catch` branch).  On a successful fetch the
conversation is stored and a further poll is scheduled at 2000 ms exactly
when some message is still `pending`; otherwise streaming is stopped and
`loadUsage` re-reads the two usage summaries.  On a failed fetch a retry
is scheduled at 3000 ms. -/
def pollStep (conversationId : String) (fetched : Option Conversation) : PollStepResult :=
  match fetched with
  | none =>
    { calls := [.getConversation conversationId]
      schedulesNext := true
      nextDelayMs := 3000
      newConversation := none
      stopsStreaming := false }
  | some conv =>
    if hasPendingMessage conv then
      { calls := [.getConversation conversationId]
        schedulesNext := true
        nextDelayMs := 2000
        newConversation := some conv
        stopsStreaming := false }
    else
      { calls := [.getConversation conversationId,
                  .getUsageSummary "overall", .getUsageSummary "device"]
        schedulesNext := false
        nextDelayMs := 0
        newConversation := some conv
        stopsStreaming := true }

/-! ## C2 — background submission (spec-modelled backend)

The backend handler for `POST /chat/submit` is not part of the source
tree; `api.ts` only declares the client stub `submitChat`, whose response
carries `conversation_id` and `assistant_message_id`, and
`handleSendMessage` (lines 442–476) shows the caller side: a `pending`
placeholder is rendered, the submission response is awaited, and polling
starts.  The handler itself is modelled from the specification (§4.4.4):
the exchange is created in `pending`, the provider call is dispatched
without blocking the submission response, and the conversation id and
exchange id are returned immediately. -/

namespace Backend

/-- Status of an exchange (§3 of the spec). -/
inductive ExchangeStatus where
  | pending
  | streaming
  | complete
  | error
deriving DecidableEq

/-- An assistant exchange record: a user turn and its assistant response
with lifecycle status. -/
structure Exchange where
  id : ℕ
  conversationId : ℕ
  userContent : String
  assistantContent : String
  status : ExchangeStatus
deriving DecidableEq

/-- Orchestrator state: the stored exchanges, the queue of dispatched but
not yet completed provider calls, and the next fresh exchange id. -/
structure OrchestratorState where
  exchanges : List Exchange
  dispatched : List ℕ
  nextId : ℕ
deriving DecidableEq

/-- Mirrors the response type of `submitChat` in `api.ts`:
`{ conversation_id, assistant_message_id }`. -/
structure SubmitResponse where
  conversation_id : ℕ
  assistant_message_id : ℕ
deriving DecidableEq

/-- The steps a background submission performs, in order. -/
inductive SubmitEvent where
  | createExchange (exchangeId : ℕ) (status : ExchangeStatus)
  | dispatchProviderCall (exchangeId : ℕ)
  | respond (conversationId : ℕ) (exchangeId : ℕ)
deriving DecidableEq

/-- Modelled from the spec: the backend `POST /chat/submit` handler,
which is code of this repository not under `src/` (§4.4.4 of the spec):
it creates the exchange record in `pending`, then dispatches the provider
call without awaiting it, then immediately responds with the conversation
id and the exchange id.  The returned event list records the order of the
three steps; the dispatched call is still outstanding — queued in
`dispatched` with the exchange still `pending` — when the response is
produced. -/
def submitBackground (st : OrchestratorState) (conversationId : ℕ) (message : String) :
    OrchestratorState × SubmitResponse × List SubmitEvent :=
  let ex : Exchange :=
    { id := st.nextId
      conversationId := conversationId
      userContent := message
      assistantContent := ""
      status := .pending }
  let st1 := { st with exchanges := st.exchanges ++ [ex], nextId := st.nextId + 1 }
  let st2 := { st1 with dispatched := st1.dispatched ++ [ex.id] }
  (st2,
   { conversation_id := conversationId, assistant_message_id := ex.id },
   [.createExchange ex.id .pending, .dispatchProviderCall ex.id,
    .respond conversationId ex.id])

end Backend

/-! ## C9 — `parseCommand` argument handling

From `frontend/src/commands.ts` lines 183–196. -/

/-- The command identifiers of `commands.ts` (`CommandId`). -/
inductive CommandId where
  | help
  | model
  | temp
  | reasoning
  | system
  | image
deriving DecidableEq

/-- The command-word test of `parseCommand` (line 189):
`['help', 'model', 'temp', 'reasoning', 'system', 'image'].includes(command)`,
returning the selected command. -/
def commandIdOf? (s : List Char) : Option CommandId :=
  if s = "help".data then some .help
  else if s = "model".data then some .model
  else if s = "temp".data then some .temp
  else if s = "reasoning".data then some .reasoning
  else if s = "system".data then some .system
  else if s = "image".data then some .image
  else none

/-- Result type of `parseCommand`: the selected command and its argument
string. -/
structure ParsedCommand where
  id : CommandId
  arg : String
deriving DecidableEq

/-- Mirrors `parseCommand` of `commands.ts` (lines 183–196) on the
underlying character list: an input not starting with `/` is not a
command; the input is trimmed and split on whitespace runs
(`input.trim().split(/\s+/)`); the first token without its leading `/`,
lowercased, must be a known command word; the remaining tokens joined
with single spaces (`rest.join(' ')`) form the argument.  (The split of
a trimmed string starting with `/` is never empty, so the `[]` branch is
unreachable.) -/
def parseCommandL (input : List Char) : Option (CommandId × List Char) :=
  if input.head? = some '/' then
    match wsWords (jsTrimL input) with
    | [] => none
    | rawCommand :: rest =>
      match commandIdOf? ((rawCommand.drop 1).map Char.toLower) with
      | none => none
      | some id => some (id, joinSp rest)
  else none

/-- Mirrors `parseCommand` of `commands.ts` at the `String` level. -/
def parseCommand (input : String) : Option ParsedCommand :=
  (parseCommandL input.data).map (fun p => { id := p.1, arg := ⟨p.2⟩ })

/-- Follows the spec's words for C9 (not the code): the remainder of the
input after the first whitespace-delimited token, verbatim — the trimmed
input with its first token and the whitespace separating that token from
the rest removed, and nothing else changed. -/
def verbatimRemainder (input : List Char) : List Char :=
  ((jsTrimL input).dropWhile (fun c => !isWs c)).dropWhile isWs

/-! ## The reasoning invariant (C10) -/

/-- The reasoning invariant: whenever the active model declares a
non-empty set of reasoning levels, the stored reasoning level is one of
them. -/
def reasoningInvariant (models : List ModelInfo) (st : AppState) : Prop :=
  ∀ mm, getActiveModel models st = some mm → mm.reasoning_levels ≠ [] →
    st.reasoning ∈ mm.reasoning_levels

/-! ## Theorems for C1, C8, C3 -/

/-- C1 (counterexample): the claim says the choice between streaming and
background mode is supplied by an explicit caller flag and never inferred
from network or visibility signals.  In the code the mode is exactly the
value of `navigator.onLine && document.visibilityState === 'visible'`:
holding every caller-visible input fixed and toggling only the network
flag flips the mode, so the mode is inferred from the network signal. -/
theorem submissionMode_depends_on_network :
    submissionMode true "visible" = SubmissionMode.streaming ∧
    submissionMode false "visible" = SubmissionMode.background ∧
    submissionMode true "hidden" = SubmissionMode.background := by
  refine ⟨rfl, rfl, rfl⟩

/-- C1 (amended): the submission handler infers the execution mode from
the browser signals — streaming exactly when the browser reports online
and the document is visible, background otherwise; no explicit mode flag
exists on the submission path. -/
theorem submissionMode_streaming_iff (onLine : Bool) (visibilityState : String) :
    submissionMode onLine visibilityState = SubmissionMode.streaming ↔
      onLine = true ∧ visibilityState = "visible" := by
  unfold submissionMode shouldStream
  rcases onLine with _ | _
  · simp
  · by_cases h : visibilityState = "visible"
    · subst h; simp
    · simp only [Bool.true_and, true_and]
      rw [if_neg]
      · simp [h]
      · simpa using h

/-- C8 (counterexample): the claim says every substituted fallback entry
is marked `source = fallback` and `available = false`.  When the catalog
call fails, the substituted entry is indeed marked `source = "fallback"`
but carries `available = true`. -/
theorem fallback_catalog_available_true :
    ∃ m ∈ (loadCatalog none).models, m.source = "fallback" ∧ m.available = true := by
  refine ⟨(loadCatalog none).models.headI, by decide, by decide, by decide⟩

/-- C8 (amended): when the live model catalog cannot be obtained the
catalog operation does not fail: it substitutes the static fallback
entries, every substituted entry is marked `source = fallback` (and
`pricing_source = fallback`), the catalog is non-empty and its default
model is one of its entries — but the substituted entry is marked
`available = true`, not `available = false`. -/
theorem fallback_catalog_spec :
    (loadCatalog none).models ≠ [] ∧
    ((loadCatalog none).models.all
      (fun m => m.source == "fallback" && m.pricing_source == "fallback" && m.available)) = true ∧
    (loadCatalog none).defaults.model ∈ (loadCatalog none).models.map ModelInfo.id := by
  exact ⟨by decide, by decide, by decide⟩

/-- C3: for every active model that does not support temperature the
request body built by `handleSendMessage` carries no temperature field at
all, and for every active model whose set of reasoning levels is empty it
carries no reasoning field — the provider request body never carries an
unsupported field.  (The body construction is shared verbatim by the
streaming and the background submission paths.) -/
theorem chatRequestBody_omits_unsupported_fields
    (models : List ModelInfo) (st : AppState) (message : String) (m : ModelInfo)
    (hm : getActiveModel models st = some m) :
    (m.supports_temperature = false →
      (sendMessageRequestBody models st message).temperature = none) ∧
    (m.reasoning_levels = [] →
      (sendMessageRequestBody models st message).reasoning = none) := by
  constructor
  · intro hTemp
    simp [sendMessageRequestBody, chatRequestBody, hm, effectiveTemp, hTemp]
  · intro hLevels
    simp [sendMessageRequestBody, chatRequestBody, hm, effectiveReasoning, hLevels]

/-- C3 (witness): a concrete model without temperature support and with
no reasoning levels; the resolved body omits both fields. -/
theorem chatRequestBody_omits_unsupported_fields_witness :
    (sendMessageRequestBody [sampleClaude]
      { sampleState with selectedModel := "claude-3-5-sonnet-20240620" }
      "Hello").temperature = none ∧
    (sendMessageRequestBody [sampleClaude]
      { sampleState with selectedModel := "claude-3-5-sonnet-20240620" }
      "Hello").reasoning = none := by
  have h : getActiveModel [sampleClaude]
      { sampleState with selectedModel := "claude-3-5-sonnet-20240620" } =
      some sampleClaude := by decide
  exact ⟨(chatRequestBody_omits_unsupported_fields _ _ "Hello" _ h).1 (by decide),
         (chatRequestBody_omits_unsupported_fields _ _ "Hello" _ h).2 (by decide)⟩

/-! ## Theorems for C6 and C7 -/

/-- C6: a `/temp` command is rejected — the error banner is set while the
selected model, temperature, reasoning, messages and queued system text
stay unchanged — whenever the active model does not support temperature,
or the argument does not convert to a finite number, or the value lies
outside the closed interval `[0, 2]`; and `/temp 3.0` is rejected in
every state, whatever the active model's capabilities. -/
theorem tempCommand_rejection_spec (models : List ModelInfo) (st : AppState)
    (arg : String) :
    (((∃ m, getActiveModel models st = some m ∧ m.supports_temperature = false) ∨
        jsNumberFinite arg = none ∨
        (∃ v, jsNumberFinite arg = some v ∧ (v < 0 ∨ 2 < v))) →
      (handleTempCommand models st arg).error.isSome = true ∧
      (handleTempCommand models st arg).temperature = st.temperature ∧
      (handleTempCommand models st arg).selectedModel = st.selectedModel ∧
      (handleTempCommand models st arg).reasoning = st.reasoning ∧
      (handleTempCommand models st arg).messages = st.messages ∧
      (handleTempCommand models st arg).pendingSystem = st.pendingSystem) ∧
    ((handleTempCommand models st "3.0").error.isSome = true ∧
      (handleTempCommand models st "3.0").temperature = st.temperature) := by
  have h30 : jsNumberFinite "3.0" = some 3 := by decide
  constructor
  · intro h
    unfold handleTempCommand
    cases hfind : models.find? (fun m => m.id == st.selectedModel) with
    | none =>
      simp only [hfind]
      cases hnum : jsNumberFinite arg with
      | none => simp
      | some v =>
        rcases h with ⟨m, hm, _⟩ | hn | ⟨v', hv', hrange⟩
        · rw [getActiveModel, hfind] at hm; exact absurd hm (by simp)
        · rw [hnum] at hn; exact absurd hn (by simp)
        · rw [hnum] at hv'
          have : v = v' := by injection hv'
          subst this
          simp only [if_pos hrange]
          simp
    | some m0 =>
      simp only [hfind]
      by_cases hsupp : m0.supports_temperature
      · simp only [hsupp, Bool.not_true, Bool.false_eq_true, if_false]
        cases hnum : jsNumberFinite arg with
        | none => simp
        | some v =>
          rcases h with ⟨m, hm, hmf⟩ | hn | ⟨v', hv', hrange⟩
          · rw [getActiveModel, hfind] at hm
            have : m0 = m := by injection hm
            subst this
            rw [hsupp] at hmf
            exact absurd hmf (by simp)
          · rw [hnum] at hn; exact absurd hn (by simp)
          · rw [hnum] at hv'
            have : v = v' := by injection hv'
            subst this
            simp only [if_pos hrange]
            simp
      · rw [Bool.not_eq_true] at hsupp
        simp only [hsupp, Bool.not_false, if_true]
        simp
  · unfold handleTempCommand
    cases hfind : models.find? (fun m => m.id == st.selectedModel) with
    | none =>
      simp only [hfind, h30]
      have : (3 : ℚ) < 0 ∨ 2 < (3 : ℚ) := Or.inr (by norm_num)
      simp only [if_pos this]
      simp
    | some m0 =>
      simp only [hfind]
      by_cases hsupp : m0.supports_temperature
      · simp only [hsupp, Bool.not_true, Bool.false_eq_true, if_false, h30]
        have : (3 : ℚ) < 0 ∨ 2 < (3 : ℚ) := Or.inr (by norm_num)
        simp only [if_pos this]
        simp
      · rw [Bool.not_eq_true] at hsupp
        simp only [hsupp, Bool.not_false, if_true]
        simp

/-- C6 (witness): with `o1-mini` active — a model without temperature
support — `/temp 1.0` is rejected and the temperature is unchanged. -/
theorem tempCommand_rejection_spec_witness :
    (handleTempCommand [sampleO1] { sampleState with selectedModel := "o1-mini" }
      "1.0").error.isSome = true ∧
    (handleTempCommand [sampleO1] { sampleState with selectedModel := "o1-mini" }
      "1.0").temperature =
      ({ sampleState with selectedModel := "o1-mini" } : AppState).temperature := by
  have h := (tempCommand_rejection_spec [sampleO1]
    { sampleState with selectedModel := "o1-mini" } "1.0").1
    (Or.inl ⟨sampleO1, by decide, by decide⟩)
  exact ⟨h.1, h.2.1⟩

/-- C7 (counterexample): with `gpt-5.1` active, declaring reasoning
levels `low`, `medium`, `high`, the argument `HIGH` matches no declared
level under case-sensitive comparison, yet `/reasoning HIGH` is accepted
and stores `high` — the handler lowercases the argument before
comparing, so matching is not case-sensitive in the argument. -/
theorem reasoningCommand_case_counterexample :
    (handleReasoningCommand [sampleGpt] sampleState "HIGH").error = none ∧
    (handleReasoningCommand [sampleGpt] sampleState "HIGH").reasoning = "high" ∧
    "HIGH" ∉ sampleGpt.reasoning_levels := by
  exact ⟨by decide, by decide, by decide⟩

/-- C7 (amended): `/reasoning` is rejected when the active model declares
no reasoning levels; otherwise the argument is lowercased and accepted
exactly when the lowercased form equals one of the declared levels — the
comparison is case-insensitive in the argument and exact on the declared
level.  On acceptance the stored level is the lowercased argument; on
rejection the state is unchanged apart from the error banner. -/
theorem reasoningCommand_spec (models : List ModelInfo) (st : AppState)
    (arg : String) :
    (getReasoningLevels models st = [] →
      (handleReasoningCommand models st arg).error.isSome = true ∧
      (handleReasoningCommand models st arg).reasoning = st.reasoning) ∧
    (getReasoningLevels models st ≠ [] →
      (jsToLower arg ∈ getReasoningLevels models st →
        (handleReasoningCommand models st arg).reasoning = jsToLower arg ∧
        (handleReasoningCommand models st arg).error = none) ∧
      (jsToLower arg ∉ getReasoningLevels models st →
        (handleReasoningCommand models st arg).error.isSome = true ∧
        (handleReasoningCommand models st arg).reasoning = st.reasoning ∧
        (handleReasoningCommand models st arg).temperature = st.temperature ∧
        (handleReasoningCommand models st arg).messages = st.messages)) := by
  constructor
  · intro hnil
    unfold handleReasoningCommand
    simp only [hnil]
    simp
  · intro hne
    have hempty : (getReasoningLevels models st).isEmpty = false := by
      cases h : getReasoningLevels models st with
      | nil => exact absurd h hne
      | cons a l => simp
    constructor
    · intro hmem
      unfold handleReasoningCommand
      simp only [hempty, Bool.false_eq_true, if_false]
      cases hfind : (getReasoningLevels models st).find? (fun level => level == jsToLower arg) with
      | none =>
        rw [List.find?_eq_none] at hfind
        exact absurd (by simp : (jsToLower arg == jsToLower arg) = true) (hfind _ hmem)
      | some x =>
        have hpx : (x == jsToLower arg) = true := by simpa using List.find?_some hfind
        have hx : x = jsToLower arg := eq_of_beq hpx
        subst hx
        simp [addSystemMessage]
    · intro hnmem
      unfold handleReasoningCommand
      simp only [hempty, Bool.false_eq_true, if_false]
      cases hfind : (getReasoningLevels models st).find? (fun level => level == jsToLower arg) with
      | none => simp
      | some x =>
        have hpx : (x == jsToLower arg) = true := by simpa using List.find?_some hfind
        have hx : x = jsToLower arg := eq_of_beq hpx
        subst hx
        exact absurd (List.mem_of_find?_eq_some hfind) hnmem

/-- C7 (witness): with `claude-3-5-sonnet-20240620` active — a model with
no reasoning levels — `/reasoning high` is rejected. -/
theorem reasoningCommand_spec_witness :
    (handleReasoningCommand [sampleClaude]
      { sampleState with selectedModel := "claude-3-5-sonnet-20240620" }
      "high").error.isSome = true := by
  exact ((reasoningCommand_spec [sampleClaude]
    { sampleState with selectedModel := "claude-3-5-sonnet-20240620" } "high").1
    (by decide)).1

/-! ## Theorems for C4 -/

/-- Head of a non-empty list is a member (for `headI`). -/
lemma headI_mem {α : Type} [Inhabited α] {l : List α} (h : l ≠ []) : l.headI ∈ l := by
  cases l with
  | nil => exact absurd rfl h
  | cons a t => exact List.mem_cons_self a t

/-- In a catalog with pairwise-distinct model ids, looking a member's id
up returns that member. -/
lemma find?_id_eq_self {models : List ModelInfo} {m : ModelInfo}
    (hids : (models.map ModelInfo.id).Nodup) (hm : m ∈ models) :
    models.find? (fun x => x.id == m.id) = some m := by
  induction models with
  | nil => cases hm
  | cons a l ih =>
    rw [List.map_cons] at hids
    have hcons := List.nodup_cons.mp hids
    rcases List.mem_cons.mp hm with rfl | hmem
    · exact List.find?_cons_of_pos _ (by simp)
    · have hane : ¬ ((fun x => x.id == m.id) a = true) := by
        intro hc
        have hmm : m.id ∈ l.map ModelInfo.id := List.mem_map_of_mem _ hmem
        simp only [beq_iff_eq] at hc
        rw [hc] at hcons
        exact hcons.1 hmm
      have hstep : List.find? (fun x => x.id == m.id) (a :: l) =
          List.find? (fun x => x.id == m.id) l := List.find?_cons_of_neg _ hane
      rw [hstep]
      exact ih hcons.2 hmem

/-- C4: the `/model` query is trimmed and lowercased, and the match is
tried in the order exact id, exact display name, substring of the id —
each tier case-insensitively, the first match of the first non-empty tier
winning; no match (including the empty query) is a rejection that leaves
the selection, temperature and reasoning unchanged.  On a match the
selection becomes the matched model, the reasoning level is reset to the
model's first declared level when the model declares levels that do not
contain the current one (and kept when they do), and the temperature is
reset to `0.0` when the model does not support temperature.  The
hypothesis that catalog ids are pairwise distinct reflects the catalog
being keyed by model id. -/
theorem modelCommand_spec (models : List ModelInfo) (st : AppState) (q : String)
    (hids : (models.map ModelInfo.id).Nodup) :
    (findModel models q = none ↔
      (jsToLower (jsTrim q) = "" ∨
        ∀ x ∈ models,
          jsToLower x.id ≠ jsToLower (jsTrim q) ∧
          jsToLower x.name ≠ jsToLower (jsTrim q) ∧
          jsIncludes (jsToLower x.id) (jsToLower (jsTrim q)) = false)) ∧
    (findModel models q = none →
      (handleModelCommand models st q).error.isSome = true ∧
      (handleModelCommand models st q).selectedModel = st.selectedModel ∧
      (handleModelCommand models st q).temperature = st.temperature ∧
      (handleModelCommand models st q).reasoning = st.reasoning) ∧
    (∀ m, findModel models q = some m →
      (∃ l₁ l₂, models = l₁ ++ m :: l₂ ∧
        ((jsToLower m.id = jsToLower (jsTrim q) ∧
            ∀ x ∈ l₁, jsToLower x.id ≠ jsToLower (jsTrim q)) ∨
         ((∀ x ∈ models, jsToLower x.id ≠ jsToLower (jsTrim q)) ∧
            jsToLower m.name = jsToLower (jsTrim q) ∧
            ∀ x ∈ l₁, jsToLower x.name ≠ jsToLower (jsTrim q)) ∨
         ((∀ x ∈ models, jsToLower x.id ≠ jsToLower (jsTrim q) ∧
             jsToLower x.name ≠ jsToLower (jsTrim q)) ∧
            jsIncludes (jsToLower m.id) (jsToLower (jsTrim q)) = true ∧
            ∀ x ∈ l₁, jsIncludes (jsToLower x.id) (jsToLower (jsTrim q)) = false))) ∧
      (handleModelCommand models st q).selectedModel = m.id ∧
      (m.reasoning_levels ≠ [] → st.reasoning ∉ m.reasoning_levels →
        (handleModelCommand models st q).reasoning = m.reasoning_levels.headI) ∧
      (m.reasoning_levels ≠ [] → st.reasoning ∈ m.reasoning_levels →
        (handleModelCommand models st q).reasoning = st.reasoning) ∧
      (m.supports_temperature = false →
        (handleModelCommand models st q).temperature = 0)) := by
  refine ⟨?_, ?_, ?_⟩
  · -- the no-match characterisation
    constructor
    · intro hnone
      by_cases hq : (jsToLower (jsTrim q) == "") = true
      · exact Or.inl (eq_of_beq hq)
      · right
        unfold findModel at hnone
        rw [if_neg hq] at hnone
        cases h1 : models.find? (fun x => jsToLower x.id == jsToLower (jsTrim q)) with
        | some m1 => rw [h1] at hnone; cases hnone
        | none =>
          rw [h1] at hnone
          cases h2 : models.find? (fun x => jsToLower x.name == jsToLower (jsTrim q)) with
          | some m2 => rw [h2] at hnone; cases hnone
          | none =>
            rw [h2] at hnone
            intro x hx
            refine ⟨?_, ?_, ?_⟩
            · simpa using List.find?_eq_none.mp h1 x hx
            · simpa using List.find?_eq_none.mp h2 x hx
            · simpa using List.find?_eq_none.mp hnone x hx
    · intro h
      unfold findModel
      by_cases hq : (jsToLower (jsTrim q) == "") = true
      · rw [if_pos hq]
      · rw [if_neg hq]
        rcases h with hq' | hall
        · exact absurd (by simp [hq']) hq
        · have h1 : models.find? (fun x => jsToLower x.id == jsToLower (jsTrim q)) = none :=
            List.find?_eq_none.mpr (fun x hx => by simp [(hall x hx).1])
          have h2 : models.find? (fun x => jsToLower x.name == jsToLower (jsTrim q)) = none :=
            List.find?_eq_none.mpr (fun x hx => by simp [(hall x hx).2.1])
          have h3 : models.find? (fun x => jsIncludes (jsToLower x.id) (jsToLower (jsTrim q))) = none :=
            List.find?_eq_none.mpr (fun x hx => by simp [(hall x hx).2.2])
          rw [h1, h2, h3]
  · -- rejection leaves the state unchanged
    intro hnone
    simp [handleModelCommand, hnone]
  · -- a match: tier characterisation and state updates
    intro m hm
    have hm0 := hm
    have hq : ¬ (jsToLower (jsTrim q) == "") = true := by
      intro hq
      unfold findModel at hm
      rw [if_pos hq] at hm
      cases hm
    unfold findModel at hm
    rw [if_neg hq] at hm
    have htier : ∃ l₁ l₂, models = l₁ ++ m :: l₂ ∧
        ((jsToLower m.id = jsToLower (jsTrim q) ∧
            ∀ x ∈ l₁, jsToLower x.id ≠ jsToLower (jsTrim q)) ∨
         ((∀ x ∈ models, jsToLower x.id ≠ jsToLower (jsTrim q)) ∧
            jsToLower m.name = jsToLower (jsTrim q) ∧
            ∀ x ∈ l₁, jsToLower x.name ≠ jsToLower (jsTrim q)) ∨
         ((∀ x ∈ models, jsToLower x.id ≠ jsToLower (jsTrim q) ∧
             jsToLower x.name ≠ jsToLower (jsTrim q)) ∧
            jsIncludes (jsToLower m.id) (jsToLower (jsTrim q)) = true ∧
            ∀ x ∈ l₁, jsIncludes (jsToLower x.id) (jsToLower (jsTrim q)) = false)) := by
      cases h1 : models.find? (fun x => jsToLower x.id == jsToLower (jsTrim q)) with
      | some m1 =>
        rw [h1] at hm
        have hmm : m1 = m := by injection hm
        subst hmm
        obtain ⟨hp, as, bs, heq, hprev⟩ := List.find?_eq_some.mp h1
        exact ⟨as, bs, heq, Or.inl ⟨eq_of_beq hp, fun x hx => by simpa using hprev x hx⟩⟩
      | none =>
        rw [h1] at hm
        have hnoid : ∀ x ∈ models, jsToLower x.id ≠ jsToLower (jsTrim q) :=
          fun x hx => by simpa using List.find?_eq_none.mp h1 x hx
        cases h2 : models.find? (fun x => jsToLower x.name == jsToLower (jsTrim q)) with
        | some m2 =>
          rw [h2] at hm
          have hmm : m2 = m := by injection hm
          subst hmm
          obtain ⟨hp, as, bs, heq, hprev⟩ := List.find?_eq_some.mp h2
          exact ⟨as, bs, heq, Or.inr (Or.inl ⟨hnoid, eq_of_beq hp,
            fun x hx => by simpa using hprev x hx⟩)⟩
        | none =>
          rw [h2] at hm
          have hnoname : ∀ x ∈ models, jsToLower x.name ≠ jsToLower (jsTrim q) :=
            fun x hx => by simpa using List.find?_eq_none.mp h2 x hx
          obtain ⟨hp, as, bs, heq, hprev⟩ := List.find?_eq_some.mp hm
          exact ⟨as, bs, heq, Or.inr (Or.inr ⟨fun x hx => ⟨hnoid x hx, hnoname x hx⟩,
            hp, fun x hx => by simpa using hprev x hx⟩)⟩
    have hmem : m ∈ models := by
      obtain ⟨l₁, l₂, heq, -⟩ := htier
      rw [heq]
      exact List.mem_append.mpr (Or.inr (List.mem_cons_self _ _))
    have hsel : models.find? (fun x => x.id == m.id) = some m := find?_id_eq_self hids hmem
    refine ⟨htier, ?_, ?_, ?_, ?_⟩
    · simp [handleModelCommand, hm0, handleModelChange, hsel, addSystemMessage]
    · intro hne hnmem
      have hcont : m.reasoning_levels.contains st.reasoning = false := by
        cases hc : m.reasoning_levels.contains st.reasoning with
        | false => rfl
        | true => exact absurd (List.mem_of_elem_eq_true hc) hnmem
      have hlen : 0 < m.reasoning_levels.length := List.length_pos.mpr hne
      simp [handleModelCommand, hm0, handleModelChange, hsel, addSystemMessage, hcont, hlen]
      intro h
      exact absurd h hnmem
    · intro hne hmem'
      have hcont : m.reasoning_levels.contains st.reasoning = true :=
        List.elem_eq_true_of_mem hmem'
      simp [handleModelCommand, hm0, handleModelChange, hsel, addSystemMessage, hcont]
      intro _ hn
      exact absurd hmem' hn
    · intro hts
      simp [handleModelCommand, hm0, handleModelChange, hsel, addSystemMessage, hts]

/-- C4 (witness): on the sample catalog the query `claude` — neither an
exact id nor an exact display name — substring-matches
`claude-3-5-sonnet-20240620`, which declares no reasoning levels and no
temperature support, so the temperature is reset to `0.0`. -/
theorem modelCommand_spec_witness :
    (handleModelCommand sampleModels sampleState "claude").selectedModel =
      "claude-3-5-sonnet-20240620" ∧
    (handleModelCommand sampleModels sampleState "claude").temperature = 0 := by
  have h := (modelCommand_spec sampleModels sampleState "claude" (by decide)).2.2
    sampleClaude (by decide)
  exact ⟨h.2.1, h.2.2.2.2 (by decide)⟩

/-! ## Theorems for C10 -/

/-- The reasoning-reset conditional shared by `handleModelChange` and
`syncDefaults` lands in the level list whenever it is non-empty. -/
lemma resetReasoning_mem {levels : List String} {r : String} (hne : levels ≠ []) :
    (if levels.length > 0 && !levels.contains r then levels.headI else r) ∈ levels := by
  by_cases h : (levels.length > 0 && !levels.contains r) = true
  · rw [if_pos h]; exact headI_mem hne
  · rw [if_neg h]
    have hlen : decide (levels.length > 0) = true := by
      simp only [decide_eq_true_eq, gt_iff_lt, List.length_pos]
      exact hne
    have hcont : levels.contains r = true := by
      by_contra hc
      rw [Bool.not_eq_true] at hc
      exact h (by rw [Bool.and_eq_true]; exact ⟨hlen, by rw [hc]; rfl⟩)
    exact List.mem_of_elem_eq_true hcont

/-- Selecting a model through `handleModelChange` re-establishes the
reasoning invariant. -/
lemma reasoningInvariant_handleModelChange (models : List ModelInfo) (st : AppState)
    (modelId : String) :
    reasoningInvariant models (handleModelChange models st modelId) := by
  intro mm hmm hne
  have hsel : (handleModelChange models st modelId).selectedModel = modelId := by
    unfold handleModelChange
    split <;> rfl
  rw [getActiveModel, hsel] at hmm
  unfold handleModelChange
  split
  next hfind => rw [hfind] at hmm; cases hmm
  next selected hfind =>
    rw [hfind] at hmm
    have heq : selected = mm := by injection hmm
    subst heq
    dsimp only
    exact resetReasoning_mem hne

/-- The startup default synchronisation re-establishes the reasoning
invariant whenever catalog defaults are present (as they are at both of
its call sites). -/
lemma reasoningInvariant_syncDefaults (models : List ModelInfo)
    (defaults : ModelDefaults) (st : AppState) :
    reasoningInvariant models (syncDefaults models (some defaults) st) := by
  intro mm hmm hne
  have hsel : (syncDefaults models (some defaults) st).selectedModel =
      (if models.any (fun x => x.id == st.selectedModel) then st.selectedModel
       else defaults.model) := by
    unfold syncDefaults
    dsimp only
    split <;> rfl
  rw [getActiveModel, hsel] at hmm
  unfold syncDefaults
  dsimp only
  split
  next currentModel hfind =>
    rw [hfind] at hmm
    have heq : currentModel = mm := by injection hmm
    subst heq
    dsimp only
    exact resetReasoning_mem hne
  next hfind => rw [hfind] at hmm; cases hmm

/-- Appending a system-role message does not touch the model selection or
the reasoning level, so it preserves the reasoning invariant. -/
lemma reasoningInvariant_addSystemMessage {models : List ModelInfo} {st : AppState}
    (content : String) (h : reasoningInvariant models st) :
    reasoningInvariant models (addSystemMessage st content) := by
  intro mm hmm hne
  exact h mm hmm hne

/-- C10: every operation that changes the selected model — the startup
default synchronisation (`syncDefaults`, with the catalog defaults
present as at both call sites), `handleModelChange` (the path taken for
the model selector), and a matching `/model` command — re-establishes
the invariant that the stored reasoning level is a member of the active
model's reasoning levels whenever that model declares any, falling back
to the model's first declared level. -/
theorem modelOps_reestablish_reasoning_invariant (models : List ModelInfo) (st : AppState) :
    (∀ modelId, reasoningInvariant models (handleModelChange models st modelId)) ∧
    (∀ defaults, reasoningInvariant models (syncDefaults models (some defaults) st)) ∧
    (∀ q m, findModel models q = some m →
      reasoningInvariant models (handleModelCommand models st q)) := by
  refine ⟨fun modelId => reasoningInvariant_handleModelChange models st modelId,
          fun defaults => reasoningInvariant_syncDefaults models defaults st, ?_⟩
  intro q m hm
  unfold handleModelCommand
  rw [hm]
  exact reasoningInvariant_addSystemMessage _
    (reasoningInvariant_handleModelChange models st m.id)

/-- C10 (witness): `/model o1` on the sample catalog matches `o1-mini`;
after the command the stored reasoning level is among that model's
levels. -/
theorem modelOps_reestablish_reasoning_invariant_witness :
    findModel sampleModels "o1" = some sampleO1 ∧
    reasoningInvariant sampleModels (handleModelCommand sampleModels sampleState "o1") := by
  have h : findModel sampleModels "o1" = some sampleO1 := by decide
  exact ⟨h, (modelOps_reestablish_reasoning_invariant sampleModels sampleState).2.2
    "o1" sampleO1 h⟩

/-- Pending-message check as an existential over the fetched messages. -/
lemma hasPendingMessage_iff (conv : Conversation) :
    hasPendingMessage conv = true ↔
      ∃ msg ∈ conv.messages.getD [], msg.status = some "pending" := by
  unfold hasPendingMessage
  cases hm : conv.messages with
  | none => simp
  | some msgs =>
    simp only [Option.getD_some]
    rw [List.any_eq_true]
    constructor
    · rintro ⟨msg, hmem, hstat⟩
      exact ⟨msg, hmem, eq_of_beq hstat⟩
    · rintro ⟨msg, hmem, hstat⟩
      exact ⟨msg, hmem, by rw [hstat]; exact beq_self_eq_true _⟩

/-- C5: every iteration of the polling loop issues only read-only API
calls — in particular none that mutates exchange state or triggers a
provider call — and, when the fetch succeeds, schedules a further poll
exactly when the fetched conversation still contains a message with
status `pending`; when no pending message remains, the loop stops. -/
theorem pollStep_read_only_iff_pending (conversationId : String)
    (fetched : Option Conversation) :
    (∀ call ∈ (pollStep conversationId fetched).calls,
      call.isRead = true ∧ call.triggersProvider = false) ∧
    (∀ conv, fetched = some conv →
      ((pollStep conversationId fetched).schedulesNext = true ↔
        ∃ msg ∈ conv.messages.getD [], msg.status = some "pending")) := by
  constructor
  · intro call hcall
    cases fetched with
    | none =>
      simp only [pollStep, List.mem_singleton] at hcall
      subst hcall
      exact ⟨rfl, rfl⟩
    | some conv =>
      simp only [pollStep] at hcall
      split at hcall
      · simp only [List.mem_singleton] at hcall
        subst hcall
        exact ⟨rfl, rfl⟩
      · simp only [List.mem_cons, List.mem_singleton, List.not_mem_nil, or_false] at hcall
        rcases hcall with rfl | rfl | rfl <;> exact ⟨rfl, rfl⟩
  · intro conv hconv
    subst hconv
    rw [← hasPendingMessage_iff]
    by_cases hp : hasPendingMessage conv = true
    · simp [pollStep, hp]
    · rw [Bool.not_eq_true] at hp
      simp [pollStep, hp]

/-- C5 (witness): polling a conversation whose only assistant message is
still `pending` schedules a further poll; after it completes the poll
stops. -/
theorem pollStep_read_only_iff_pending_witness :
    (pollStep "conv-1"
      (some { id := "conv-1", title := "t", model := "gpt-5.1",
              messages := some [{ id := "m1", role := "assistant", content := "Queued...",
                                  status := some "pending" }] })).schedulesNext = true ∧
    (pollStep "conv-1"
      (some { id := "conv-1", title := "t", model := "gpt-5.1",
              messages := some [{ id := "m1", role := "assistant", content := "done",
                                  status := some "complete" }] })).schedulesNext = false := by
  constructor
  · exact ((pollStep_read_only_iff_pending "conv-1" _).2 _ rfl).mpr
      ⟨{ id := "m1", role := "assistant", content := "Queued...", status := some "pending" },
       by decide, rfl⟩
  · have h := ((pollStep_read_only_iff_pending "conv-1"
      (some { id := "conv-1", title := "t", model := "gpt-5.1",
              messages := some [{ id := "m1", role := "assistant", content := "done",
                                  status := some "complete" }] })).2 _ rfl)
    cases hs : (pollStep "conv-1"
      (some { id := "conv-1", title := "t", model := "gpt-5.1",
              messages := some [{ id := "m1", role := "assistant", content := "done",
                                  status := some "complete" }] })).schedulesNext with
    | false => rfl
    | true =>
      obtain ⟨msg, hmem, hstat⟩ := h.mp hs
      simp only [Option.getD_some, List.mem_singleton] at hmem
      subst hmem
      exact absurd hstat (by decide)

/-- C2: in a background submission the assistant exchange is created with
status `pending` strictly before the provider call is dispatched (the
event trace is create-then-dispatch-then-respond), the dispatch does not
block the submission response — at response time the dispatched call is
still queued and the exchange still `pending` — and the response
immediately carries the conversation id and the exchange id. -/
theorem submitBackground_pending_before_dispatch
    (st : Backend.OrchestratorState) (conversationId : ℕ) (message : String) :
    (Backend.submitBackground st conversationId message).2.2 =
      [Backend.SubmitEvent.createExchange st.nextId Backend.ExchangeStatus.pending,
       Backend.SubmitEvent.dispatchProviderCall st.nextId,
       Backend.SubmitEvent.respond conversationId st.nextId] ∧
    (Backend.submitBackground st conversationId message).2.1.conversation_id =
      conversationId ∧
    (Backend.submitBackground st conversationId message).2.1.assistant_message_id =
      st.nextId ∧
    (∃ ex ∈ (Backend.submitBackground st conversationId message).1.exchanges,
      ex.id = st.nextId ∧ ex.status = Backend.ExchangeStatus.pending ∧
      ex.conversationId = conversationId ∧ ex.userContent = message) ∧
    st.nextId ∈ (Backend.submitBackground st conversationId message).1.dispatched := by
  refine ⟨rfl, rfl, rfl, ?_, ?_⟩
  · exact ⟨{ id := st.nextId, conversationId := conversationId, userContent := message,
             assistantContent := "", status := Backend.ExchangeStatus.pending },
           List.mem_append.mpr (Or.inr (List.mem_singleton.mpr rfl)), rfl, rfl, rfl, rfl⟩
  · exact List.mem_append.mpr (Or.inr (List.mem_singleton.mpr rfl))

/-! Whitespace-tokenisation lemmas for `wsWords`. -/

/-- Splitting the empty string yields no tokens. -/
lemma wsWords_nil : wsWords [] = [] := rfl

/-- A leading whitespace character does not affect the token list. -/
lemma wsWords_ws_cons {c : Char} (hc : isWs c = true) (l : List Char) :
    wsWords (c :: l) = wsWords l := by
  unfold wsWords
  rw [List.splitOnP_cons, if_pos hc]
  simp [List.filter_cons]

/-- Dropping leading whitespace does not affect the token list. -/
lemma wsWords_dropWhile_ws (l : List Char) :
    wsWords (l.dropWhile isWs) = wsWords l := by
  induction l with
  | nil => rfl
  | cons c t ih =>
    by_cases hc : isWs c = true
    · rw [List.dropWhile_cons_of_pos hc, ih, wsWords_ws_cons hc]
    · rw [List.dropWhile_cons_of_neg hc]

/-- A non-empty whitespace-free string is a single token. -/
lemma wsWords_no_ws {l : List Char} (hne : l ≠ []) (h : ∀ c ∈ l, isWs c = false) :
    wsWords l = [l] := by
  unfold wsWords
  rw [List.splitOnP_eq_single _ _ (fun x hx => by simp [h x hx])]
  cases l with
  | nil => exact absurd rfl hne
  | cons a t => rfl

/-- Splitting `word ++ whitespace ++ rest` yields the word followed by
the tokens of the rest. -/
lemma wsWords_append_ws {w : List Char} (hw : w ≠ []) (hW : ∀ c ∈ w, isWs c = false)
    {s : Char} (hs : isWs s = true) (r : List Char) :
    wsWords (w ++ s :: r) = w :: wsWords r := by
  unfold wsWords
  rw [List.splitOnP_first _ _ (fun x hx => by simp [hW x hx]) s hs r]
  cases w with
  | nil => exact absurd rfl hw
  | cons a t => rfl

/-- Head of a `dropWhile` result fails the predicate. -/
lemma dropWhile_head_false {α : Type} {p : α → Bool} {l : List α} {s : α} {r : List α}
    (hd : l.dropWhile p = s :: r) : p s = false := by
  induction l with
  | nil => cases hd
  | cons a t ih =>
    by_cases ha : p a = true
    · rw [List.dropWhile_cons_of_pos ha] at hd
      exact ih hd
    · rw [List.dropWhile_cons_of_neg ha] at hd
      have h1 : a = s := by injection hd
      rw [← h1]
      exact Bool.not_eq_true _ |>.mp ha

/-- Splitting a string with a non-whitespace head yields its first
maximal non-whitespace run followed by the tokens of the remainder. -/
lemma wsWords_cons_not_ws {c : Char} (hc : isWs c = false) (t : List Char) :
    wsWords (c :: t) =
      ((c :: t).takeWhile (fun x => !isWs x)) ::
        wsWords ((c :: t).dropWhile (fun x => !isWs x)) := by
  have hW : ∀ x ∈ (c :: t).takeWhile (fun x => !isWs x), isWs x = false := by
    intro x hx
    simpa using List.mem_takeWhile_imp hx
  have hw : (c :: t).takeWhile (fun x => !isWs x) ≠ [] := by
    rw [List.takeWhile_cons_of_pos (by simp [hc])]
    simp
  have hsplit := List.takeWhile_append_dropWhile (fun x => !isWs x) (c :: t)
  cases hd : (c :: t).dropWhile (fun x => !isWs x) with
  | nil =>
    rw [hd] at hsplit
    rw [List.append_nil] at hsplit
    conv_lhs => rw [← hsplit]
    rw [wsWords_no_ws hw hW, wsWords_nil]
  | cons s r =>
    have hs : isWs s = true := by
      have := dropWhile_head_false hd
      simpa using this
    rw [hd] at hsplit
    conv_lhs => rw [← hsplit]
    rw [wsWords_append_ws hw hW hs r, wsWords_ws_cons hs]

/-- The trimmed string is a prefix of the string with only its leading
whitespace removed. -/
lemma jsTrimL_prefix_dropWhile (l : List Char) :
    jsTrimL l <+: l.dropWhile isWs := by
  unfold jsTrimL
  have h1 : (l.dropWhile isWs).reverse.dropWhile isWs <:+ (l.dropWhile isWs).reverse :=
    List.dropWhile_suffix isWs
  have h2 := List.reverse_prefix.mpr h1
  rwa [List.reverse_reverse] at h2

/-- Trimming a string that starts with `/` keeps the leading `/` (when
anything is left at all). -/
lemma jsTrimL_slash (tl : List Char) (hne : jsTrimL ('/' :: tl) ≠ []) :
    ∃ tl', jsTrimL ('/' :: tl) = '/' :: tl' := by
  have hpre : jsTrimL ('/' :: tl) <+: ('/' :: tl).dropWhile isWs :=
    jsTrimL_prefix_dropWhile _
  have hdw : ('/' :: tl).dropWhile isWs = '/' :: tl :=
    List.dropWhile_cons_of_neg (by decide)
  rw [hdw] at hpre
  obtain ⟨t, ht⟩ := hpre
  cases hj : jsTrimL ('/' :: tl) with
  | nil => exact absurd hj hne
  | cons c cs =>
    rw [hj] at ht
    have h1 : c = '/' := by injection ht
    exact ⟨cs, by rw [h1]⟩

/-- C9 (counterexample): the claim says the argument is the remainder of
the input verbatim, whitespace preserved.  For `/system a  b` (two
spaces) the verbatim remainder is `a  b`, but the parser hands the
handler `a b` — the remainder is re-tokenised on whitespace runs and
re-joined with single spaces. -/
theorem parseCommand_not_verbatim :
    parseCommand "/system a  b" = some { id := CommandId.system, arg := "a b" } ∧
    verbatimRemainder ("/system a  b").data = ("a  b").data ∧
    ("a b" : String) ≠ "a  b" := by
  exact ⟨by decide, by decide, by decide⟩

/-- C9 (amended): the argument `parseCommand` hands to a command handler
is the whitespace normalisation of the verbatim remainder: the remainder
after the first whitespace-delimited token, tokenised on whitespace runs
and re-joined with single spaces (so internal whitespace runs collapse
to one space and edge whitespace disappears; a remainder that is already
single-spaced passes through verbatim).  Commands with their own
sub-grammar (`/image`) re-tokenise the argument further in their own
handlers. -/
theorem parseCommand_arg_normalized (input : List Char) (id : CommandId)
    (arg : List Char) (h : parseCommandL input = some (id, arg)) :
    arg = joinSp (wsWords (verbatimRemainder input)) := by
  unfold parseCommandL at h
  by_cases hif : input.head? = some '/'
  case neg => rw [if_neg hif] at h; cases h
  rw [if_pos hif] at h
  cases hw : wsWords (jsTrimL input) with
  | nil => rw [hw] at h; cases h
  | cons raw rest =>
    rw [hw] at h
    dsimp only at h
    cases hcid : commandIdOf? ((raw.drop 1).map Char.toLower) with
    | none => rw [hcid] at h; cases h
    | some id' =>
      rw [hcid] at h
      have harg : arg = joinSp rest := by
        simp only [Option.some.injEq, Prod.mk.injEq] at h
        exact h.2.symm
      obtain ⟨tl, rfl⟩ : ∃ tl, input = '/' :: tl := by
        cases input with
        | nil => cases hif
        | cons c t =>
          have : c = '/' := by
            simpa [List.head?] using hif
          exact ⟨t, by rw [this]⟩
      have hne : jsTrimL ('/' :: tl) ≠ [] := by
        intro hnil
        rw [hnil, wsWords_nil] at hw
        cases hw
      obtain ⟨tl', htrim⟩ := jsTrimL_slash tl hne
      have hrest : rest = wsWords (verbatimRemainder ('/' :: tl)) := by
        have hslash : isWs '/' = false := by decide
        rw [htrim, wsWords_cons_not_ws hslash tl'] at hw
        have h2 : rest = wsWords (('/' :: tl').dropWhile (fun x => !isWs x)) := by
          injection hw with hhead htail
          exact htail.symm
        unfold verbatimRemainder
        rw [htrim, wsWords_dropWhile_ws]
        exact h2
      rw [harg, hrest]

/-- C9 (witness): for the concrete input `/system a  b` the parsed
argument equals the whitespace-normalised remainder `a b`. -/
theorem parseCommand_arg_normalized_witness :
    parseCommandL ("/system a  b").data = some (CommandId.system, ("a b").data) ∧
    ("a b").data = joinSp (wsWords (verbatimRemainder ("/system a  b").data)) := by
  have h : parseCommandL ("/system a  b").data =
      some (CommandId.system, ("a b").data) := by decide
  exact ⟨h, parseCommand_arg_normalized _ _ _ h⟩

end LlmRouter
